import Mathlib

/-!
Verification of the konbini commit-message generator.

The development shallowly embeds the core pipeline of the repository:

* the response parser (`extractCommitMessage` from `src/konbini.ts` and
  `parseResponse` from `src/anthropic/commit-message.ts`);
* the quality heuristic (`evaluateCommitMessage` from
  `src/anthropic/commit-message.ts`);
* the exclusion-pattern file filter (`filterFiles` from `src/git/diff.ts`)
  and the standalone staged-diff collection (`getGitDiff` from
  `src/konbini.ts`);
* the dual-variant generation step (`generateCommitMessage` from the
  unnamed revision of `anthropic/commit-message.ts`);
* the two prompt templates (`KONBINI_PROMPTS.generateCommitMessageEn` and
  `KONBINI_PROMPTS.generateCommitMessageCn` from the unnamed revision of
  `prompts.ts`).

Strings are modelled as `List Char` (JavaScript strings; the `length` of a
`List Char` models `String.prototype.length` up to the UTF-16/code-point
distinction, which none of the verified properties depend on).
-/

/-- ASCII lower-casing of one character: the model of what JavaScript
`String.prototype.toLowerCase` and the regex `i` flag do on the ASCII
range (the only range the fixed tags and keywords of the source use). -/
def lowChar (c : Char) : Char :=
  if 65 ≤ c.toNat ∧ c.toNat ≤ 90 then Char.ofNat (c.toNat + 32) else c

/-- Case-insensitive character comparison, as used by the `/i` regex flag in
`extractCommitMessage`. -/
def eqCI (a b : Char) : Bool := lowChar a == lowChar b

/-- Case-insensitively, does `s` start with the pattern `pat`? -/
def startsWithCI : List Char → List Char → Bool
  | [], _ => true
  | _ :: _, [] => false
  | p :: ps, s :: ss => eqCI p s && startsWithCI ps ss

/-- Index of the first case-insensitive occurrence of `pat` in a string,
the position at which the JavaScript regex engine (leftmost match) would
anchor a literal pattern under the `i` flag. -/
def findCI (pat : List Char) : List Char → Option Nat
  | [] => if startsWithCI pat [] = true then some 0 else none
  | x :: l =>
    if startsWithCI pat (x :: l) = true then some 0
    else (findCI pat l).map (· + 1)

/-- Does `pat` occur case-insensitively as a contiguous substring of the
second argument?  `containsCI pat pre = false` is exactly ("no earlier
occurrence of the marker") what the leftmost-match rule requires of the
prose before a tagged block — the prose may otherwise be arbitrary, in
particular it may contain `<` and other XML blocks. -/
def containsCI (pat : List Char) : List Char → Bool
  | [] => startsWithCI pat []
  | c :: rest => startsWithCI pat (c :: rest) || containsCI pat rest

/-- The JavaScript `String.prototype.trim` whitespace class (WhiteSpace and
LineTerminator code points). -/
def isJsSpace (c : Char) : Bool :=
  let n := c.toNat
  n == 9 || n == 10 || n == 11 || n == 12 || n == 13 || n == 32 ||
    n == 160 || n == 0x1680 || (0x2000 ≤ n && n ≤ 0x200A) ||
    n == 0x2028 || n == 0x2029 || n == 0x202F || n == 0x205F ||
    n == 0x3000 || n == 0xFEFF

/-- Model of `String.prototype.trim`: whitespace stripped from both ends. -/
def jsTrim (s : List Char) : List Char :=
  ((s.dropWhile isJsSpace).reverse.dropWhile isJsSpace).reverse

/-- Model of `String.prototype.split('\n')`.  Like the JavaScript original it
always returns at least one (possibly empty) line. -/
def splitNl (s : List Char) : List (List Char) :=
  match s with
  | [] => [[]]
  | c :: rest =>
    let r := splitNl rest
    if c = '\n' then [] :: r else (c :: r.headD []) :: r.tail

/-- Model of `Array.prototype.join('\n')`. -/
def joinNl : List (List Char) → List Char
  | [] => []
  | [l] => l
  | l :: ls => l ++ '\n' :: joinNl ls

/-- The opening marker of the tagged commit-message block searched for by
`extractCommitMessage` (`src/konbini.ts`): the regex
`/<commit message>([\s\S]*?)<\/commit message>/i`. -/
def openTag : List Char := "<commit message>".data

/-- The closing marker of the tagged commit-message block. -/
def closeTag : List Char := "</commit message>".data

/-- The regex match of `extractCommitMessage`: the content captured by
`/<commit message>([\s\S]*?)<\/commit message>/i`, or `none` when the regex
does not match.  The leftmost-match rule together with the lazy group makes
the capture the text between the first case-insensitive occurrence of the
opening marker and the first occurrence of the closing marker after it
(a later opening marker can only match when the first one is also followed
by a closing marker, so anchoring at the first opening occurrence is
exactly the regex semantics). -/
def extractMatch (output : List Char) : Option (List Char) :=
  match findCI openTag output with
  | none => none
  | some i =>
    let rest := output.drop (i + openTag.length)
    match findCI closeTag rest with
    | none => none
    | some j => some (rest.take j)

/-- The last line of `s` whose trimmed form is non-empty (the empty string
when there is none): `lines[lines.length - 1] || ''` over
`output.split('\n').filter((line) => line.trim() !== '')`. -/
def lastNonEmptyLine (s : List Char) : List Char :=
  ((splitNl s).filter (fun line => !(jsTrim line == []))).getLastD []

/-- Model of `extractCommitMessage` (`src/konbini.ts`): the trimmed content
of the tagged block when the regex matches, otherwise the last non-empty
line of the output (the empty string when there is none). -/
def extractCommitMessage (output : List Char) : List Char :=
  match extractMatch output with
  | some m => jsTrim m
  | none => lastNonEmptyLine output

/-- The structured commit message produced by the response parser
(`GeneratedCommitMessage` in `src/types.ts`). -/
structure GeneratedCommitMessage where
  subject : List Char
  body : List Char
deriving DecidableEq, Repr

/-- Model of `parseResponse` (`src/anthropic/commit-message.ts`): trim the
completion, its first line is the subject, the remaining lines joined and
trimmed are the body. -/
def parseResponse (response : List Char) : GeneratedCommitMessage :=
  let lines := splitNl (jsTrim response)
  { subject := lines.headD [], body := jsTrim (joinNl lines.tail) }

/-- The full response parser of the specification: the tag-locating
extraction step (`extractCommitMessage`) followed by the subject/body split
(`parseResponse`).  The repository implements the two strategies in the two
cited functions; their composition is the `parse` contract of the spec. -/
def parseCompletion (output : List Char) : GeneratedCommitMessage :=
  parseResponse (extractCommitMessage output)

/-- The first line of `s` whose trimmed form is non-empty.  This definition
follows the specification's words for the fallback ("treat the first
non-empty line as subject"); it is the spec-side reference the parser is
compared against. -/
def firstNonEmptyLine (s : List Char) : List Char :=
  ((splitNl s).filter (fun line => !(jsTrim line == []))).headD []

/-- Tokens of the regexes built by `filterFiles` and `getGitDiff` from an
exclusion pattern via `pattern.replace(/\*/g, '.*')`: a star becomes `.*`
(match any run), a dot is the regex wildcard (match any one character),
every other character of the fixed pattern list is literal. -/
inductive RTok where
  | star
  | dot
  | lit (c : Char)
deriving DecidableEq, Repr

/-- Compilation of an exclusion pattern into regex tokens, the effect of
`new RegExp('^' + pattern.replace(/\*/g, '.*') + '$')` on the pattern's
characters. -/
def toks (p : List Char) : List RTok :=
  p.map fun c => if c = '*' then RTok.star else if c = '.' then RTok.dot else RTok.lit c

/-- Fuelled backtracking matcher for the token list against the whole
string (the `^...$` anchors).  Every recursive call strictly decreases
`ps.length + s.length`, so fuel `ps.length + s.length + 1` always suffices
and `rmatch` below is the exact regex semantics. -/
def rmatchF : Nat → List RTok → List Char → Bool
  | 0, _, _ => false
  | _ + 1, [], s => s.isEmpty
  | f + 1, RTok.star :: ps, s =>
    rmatchF f ps s ||
      (match s with
       | [] => false
       | _ :: t => rmatchF f (RTok.star :: ps) t)
  | _ + 1, RTok.dot :: _, [] => false
  | f + 1, RTok.dot :: ps, _ :: t => rmatchF f ps t
  | _ + 1, RTok.lit _ :: _, [] => false
  | f + 1, RTok.lit c :: ps, x :: t => (x == c) && rmatchF f ps t

/-- Whole-string regex test `new RegExp('^' + p.replace(/\*/g,'.*') + '$').test(file)`. -/
def rmatch (ps : List RTok) (s : List Char) : Bool :=
  rmatchF (ps.length + s.length + 1) ps s

/-- Does `file` match the exclusion pattern `pattern`? -/
def matchesPattern (pattern file : String) : Bool :=
  rmatch (toks pattern.data) file.data

/-- The fixed exclusion pattern list (`EXCLUDED_FILE_PATTERNS`, identical in
`src/konbini.ts` and `src/git/diff.ts`). -/
def EXCLUDED_FILE_PATTERNS : List String :=
  ["yarn.lock", "package-lock.json", "*.log", "*.min.js", "*.min.css", "dist/*", "build/*"]

/-- Does some exclusion pattern match the file?  The predicate inside the
`filter` of both `filterFiles` (`src/git/diff.ts`) and `getGitDiff`
(`src/konbini.ts`). -/
def isExcluded (file : String) : Bool :=
  EXCLUDED_FILE_PATTERNS.any fun pattern => matchesPattern pattern file

/-- Model of `filterFiles` (`src/git/diff.ts`): drop every file matched by
an exclusion pattern. -/
def filterFiles (files : List String) : List String :=
  files.filter fun file => !isExcluded file

/-- Model of the standalone `getGitDiff` (`src/konbini.ts`).  The staged
file list comes from `git.status()` and the file-scoped diff from
`git.diff(['--staged', '--', ...filesToDiff])`; both are external, so the
function takes the staged list and a diff oracle as inputs.  The returned
Boolean records whether the file-scoped `git.diff` call was made.  When
every staged file is excluded the function returns the empty diff without
invoking the oracle. -/
def getGitDiff (staged : List String) (diffFn : List String → String) : String × Bool :=
  let filesToDiff := staged.filter fun file => !isExcluded file
  if filesToDiff.length = 0 then ("", false) else (diffFn filesToDiff, true)

/-- The keyword list of `evaluateCommitMessage`. -/
def keywords : List (List Char) :=
  ["fix", "feature", "refactor", "update", "improve", "add", "remove", "change"].map String.data

/-- Case-sensitive substring test, the model of
`String.prototype.includes` (applied below to an already lower-cased
subject).  `startsWithB pat s` is `pat` being a prefix of `s`. -/
def startsWithB : List Char → List Char → Bool
  | [], _ => true
  | _ :: _, [] => false
  | p :: ps, s :: ss => p == s && startsWithB ps ss

/-- Does `pat` occur as a contiguous substring of the second argument? -/
def containsSub (pat : List Char) : List Char → Bool
  | [] => pat.isEmpty
  | c :: rest => startsWithB pat (c :: rest) || containsSub pat rest

/-- Model of `evaluateCommitMessage` (`src/anthropic/commit-message.ts`).
JavaScript number arithmetic on 0.5, 0.3 and 0.2 is modelled exactly over
`ℚ`; for these weights every partial sum the code can form (0.3 + 0.2 =
0.5, 0.5 + 0.3 = 0.8, 0.5 + 0.3 + 0.2 = 1.0, ...) is also exact in IEEE
double precision, so the rational model agrees with the JavaScript values.
`message.subject && ...` is string truthiness: non-emptiness. -/
def evaluateCommitMessage (message : GeneratedCommitMessage) : ℚ :=
  let score : ℚ := 0
  let score :=
    if (message.subject != []) && decide (message.subject.length ≤ 50) then score + 5/10
    else score
  let score :=
    if (message.body != []) && decide (0 < message.body.length) then score + 3/10
    else score
  let score :=
    if keywords.any (fun keyword => containsSub keyword (message.subject.map lowChar)) then
      score + 2/10
    else score
  -- Math.min(score, 1)
  if score ≤ 1 then score else 1

/-- The first content block of one Anthropic API response: either plain
text or some other block type (`response.content[0].type !== 'text'`). -/
inductive ApiContent where
  | text (s : List Char)
  | nonText
deriving DecidableEq, Repr

/-- The failure modes of the dual-variant generation step: a rejected API
call (the `Promise.all` rejection, re-thrown by the `catch` as an
`AnthropicError`), or a completion whose first content block is not plain
text. -/
inductive GenFailure where
  | apiRejected (e : List Char)
  | unexpectedResponseType
deriving DecidableEq, Repr

/-- Model of the dual-variant `generateCommitMessage` (unnamed revision of
`anthropic/commit-message.ts`).  The two API calls are external; the
function takes their outcomes.  `Promise.all` makes the joined operation
fail as soon as either call rejects (both-rejected ties are modelled as the
English call's rejection); when both succeed, both first content blocks
must be text or the run throws; only then are both completions parsed and
returned together. -/
def generateCommitMessage (rEn rCn : Except (List Char) ApiContent) :
    Except GenFailure (GeneratedCommitMessage × GeneratedCommitMessage) :=
  match rEn, rCn with
  | Except.error e, _ => Except.error (GenFailure.apiRejected e)
  | Except.ok _, Except.error e => Except.error (GenFailure.apiRejected e)
  | Except.ok (ApiContent.text tEn), Except.ok (ApiContent.text tCn) =>
    Except.ok (parseResponse tEn, parseResponse tCn)
  | Except.ok _, Except.ok _ => Except.error GenFailure.unexpectedResponseType

/-- JavaScript truthiness of the optional `engineerMessage` argument: both a
missing argument (`undefined`) and the empty string are falsy. -/
def jsTruthy : Option String → Bool
  | none => false
  | some s => s != ""

/-- JavaScript string interpolation of the optional argument: interpolating
`undefined` renders the text "undefined". -/
def jsVal : Option String → String
  | none => "undefined"
  | some s => s

def enSegGoal : String :=
  "\nYour goal (OVERALL_GOAL) is to generate a commit message for the following code diff that someone who read it would be likely to describe as\n\"the best commit message I have ever read in my entire career as a software engineer\".\n\n<code-diff>\n"

def enSegAfterDiff : String :=
  "\n</code-diff>\n\nHow would someone like John Carmack, known for writing in a style that's objective, straight to the point, zero fluff,\nthink about this code diff and then write a commit message that satisfies OVERALL_GOAL, given the following instructions:\n\nJohn, please follow the following steps in order to write this commit message:\n\n"

def enSegStep1Pre : String :=
  "\n1. Look at the message written by the engineer who originally authored this commit - this is their \"raw\" explanation for the rationale for this change and the implicit/explicit decisions they made.\n\n<engineer-message>\n"

def enSegStep1Post : String :=
  "\n</engineer-message>\n\nBased on this input, explicitly provide your observations, chain of thought, and conclusions based on what the engineer said.\nPlease be sure to put this in an XML block tag called <observations-about-engineer-message>.\n"

def enSegStep2A : String :=
  ". Carefully examine the code changes"

def enSegStep2Phrase : String :=
  ", and be sure to consider taking into account the engineer's original message as well as your observations about it, in order to be able to better reason about the high level context for each change you see in the actual code."

def enSegStep2B : String :=
  ".\n\nWhen doing this code examination, explicitly provide your observations, chain of thought, and conclusions.\n\nPlease be sure to put this in an XML block tag called <observations-about-code-changes>.\n\n"

def enSegStep3 : String :=
  ". List up all of the pieces of information using a unique ID for each information item. It should be a list of all the information items that we could write in the commit message.\n\nPlease be sure to put this in an XML block tag called <list-of-information-items>.\n\nAfter we've written them, use observation, chain of thought, and conclusion to list up a reasoning -> info item ID for all the info item IDs that we consider to be unnecessary to include in the commit message.\n\nPlease be sure to put this in an XML block tag called <reasoning-for-omitting-info-items>.\n\nFinally, list up the unique IDs, in order of priority, for the information items that you will be including in your commit message.\n\nPlease be sure to put this in an XML block tag called <list-of-info-item-ids-in-commit-message>.\n\n"

def enSegStep4 : String :=
  ". Generate a commit message for the contents of <list-of-info-item-ids-in-commit-message>\n\nMake sure to take into account:\n\n"

def enSegBullet : String :=
  "\n- The high level context from step one as well as your thoughts about it from <observations-about-engineer-message>\n"

def enSegFinal : String :=
  "\n- the actual changes from step two and your thoughts about that from <observations-about-code-changes>\n\nThe format for the commit message should be like returned in an XML block tag called <commit-message> and be formatted according to the guidelines below:\n\n<commit-message>\n[COMMIT_DESCRIPTION: A description of this commit that that an engineer unfamiliar with the code changes can read and get the most important information.]\nThe length of COMMIT_DESCRIPTION should be no more than 120 characters.\n\n(internal note for you, do not include this message in your response. For the EXTENDED_DESCRIPTION block below, the bar for whether to even write it is should be high. Only write it if this commit is very nuanced and contains a lot of context that is not obvious from the diff alone.\n[EXTENDED_DESCRIPTION: An addendum for the commit description - main purpose is providing additional context and details for an engineer who saw the original commit description but now wants to more deeply investigate this commit and understand more about it.]\n\n[KEY_POINTS: A list of the most important information items from <list-of-information-items> that should be included in the commit message.]\nUse your own judgment for how many KEY_POINTS should be included but consider that you probably don't want to have more than five or six.\n</commit-message>\n\nPlease note that all the \"section prefixes like COMMIT_DESCRIPTION, etc should be included - they are just placeholders for the different sections of the commit message and should be replaced with the actual content.\n"

def cnSegGoal : String :=
  "\n你的目标（总体目标）是为以下代码diff生成一个commit消息。这个消息应该能让读者认为它是\"我整个软件工程师职业生涯中见过的最佳commit消息\"。\n\n<代码diff>\n"

def cnSegMid : String :=
  "\n</代码diff>\n\n请以约翰·卡马克（John Carmack，著名游戏开发者）的风格 —— 客观、直接、简洁 —— 来分析这个代码diff，并写出一个满足总体目标的commit消息。请按以下步骤进行：\n\n1. 查看原作者的commit消息。这是他们对变更理由和决策的原始解释。\n\n<工程师信息>\n"

def cnSegFinal : String :=
  "\n</工程师信息>\n\n请根据这些信息，明确提供你的观察、思维过程和结论。\n将你的分析放在 <关于工程师信息的观察> 标签中。\n\n2. 仔细检查代码变更，确保考虑到工程师的原始消息以及你对它的观察，以便更好地推理每个你在实际代码中看到的变更的高层次上下文。\n\n在进行代码检查时，明确提供你的观察、思维过程和结论。\n\n请将此放在 <关于代码变更的观察> XML标签中。\n\n3. 列出所有信息项，为每个信息项使用唯一ID。这应该是我们可能在commit消息中写入的所有信息项的列表。\n\n请将此放在 <信息项列表> XML标签中。\n\n列出后，使用观察、思维链和结论来列出推理 -> 信息项ID，用于我们认为不必包含在commit消息中的所有信息项ID。\n\n请将此放在 <省略信息项的理由> XML标签中。\n\n最后，按优先顺序列出你将在commit消息中包含的信息项的唯一ID。\n\n请将此放在 <commit消息中包含的信息项ID列表> XML标签中。\n\n4. 根据 <commit消息中包含的信息项ID列表> 的内容生成commit消息\n\n生成commit消息时，请综合考虑以下两点：\na. 第一步中分析的高层次上下文，结合你在 <关于工程师信息的观察> 标签中记录的思考\nb. 第二步中详细审查的代码实际更改，以及你在 <关于代码变更的观察> 标签中\n\n的分析结果\n\ncommit消息应按以下格式在 <提交信息> XML标签中返回，并遵循下述指南：\n\n<提交信息>\n[提交描述: 一个不熟悉代码变更的工程师能够读懂并获取最重要信息的描述。]\n提交描述的长度不应超过120个字符。\n\n[详细说明: 对提交描述的补充 - 主要目的是为看过原始提交描述但现在想深入调查此提交并了解更多信息的工程师提供额外的上下文和详细信息。]\n\n[要点: 来自 <信息项列表> 中应包含在commit消息中的最重要信息项列表。]\n使用你的判断来决定包含多少个要点，但考虑到可能不希望超过五到六个。\n</提交信息>\n\n请注意，所有的\"部分前缀\"如提交描述、详细说明等都应包括在内 - 它们只是commit消息不同部分的占位符，应替换为实际内容。\n"

/-- Model of `KONBINI_PROMPTS.generateCommitMessageEn` (unnamed revision of
`prompts.ts`).  The template interpolates `stepCounter++` at four sites,
the first inside the engineer-message conditional, so the rendered step
numbers are 1-4 when `engineerMessage` is truthy and 1-3 (with the
engineer step omitted) when it is falsy; the conditional step text, the
step-2 qualifying phrase and the step-4 bullet render only when
`engineerMessage` is truthy.  The `if ... then "2" else "1"` interpolations
are the values the mutable counter takes at each site. -/
def generateCommitMessageEn (diff : String) (engineerMessage : Option String) : String :=
  let t := jsTruthy engineerMessage
  enSegGoal ++ diff ++ enSegAfterDiff ++
    (if t then enSegStep1Pre ++ jsVal engineerMessage ++ enSegStep1Post else "") ++
    "\n\n" ++ (if t then "2" else "1") ++ enSegStep2A ++
    (if t then enSegStep2Phrase else "") ++ enSegStep2B ++
    (if t then "3" else "2") ++ enSegStep3 ++
    (if t then "4" else "3") ++ enSegStep4 ++
    (if t then enSegBullet else "") ++ enSegFinal

/-- Model of `KONBINI_PROMPTS.generateCommitMessageCn` (unnamed revision of
`prompts.ts`).  Unlike the English variant this template has hard-coded
step numbers 1-4, interpolates `engineerMessage` unconditionally inside its
engineer-message block, and uses Chinese tag names throughout. -/
def generateCommitMessageCn (diff : String) (engineerMessage : Option String) : String :=
  cnSegGoal ++ diff ++ cnSegMid ++ jsVal engineerMessage ++ cnSegFinal

/-- No non-trivial proper prefix of `pat` is a suffix of `a`: an occurrence
of `pat` in `a ++ b` can then never straddle the boundary.  Used to lift
substring-absence facts about template chunks to the concatenated prompt. -/
def noStraddle (pat a : List Char) : Bool :=
  (List.range pat.length).all fun k => k == 0 || !(pat.take k == a.drop (a.length - k))

/-- No nonempty proper tail of `pat` is a prefix of `b`: an occurrence of
`pat` in `d ++ b` can then never straddle into `b`.  Used together with
`noStraddle` to lift substring-absence facts over an unknown middle
segment. -/
def noTailStart (pat b : List Char) : Bool :=
  (List.range pat.length).all fun k => k == 0 || !(startsWithB (List.drop k pat) b)

/-- Everything after the interpolated diff in the English prompt when the
engineer message is falsy (proof-layer abbreviation; the step numbers
resolve to 1, 2, 3). -/
def enTailNone : String :=
  enSegAfterDiff ++ "\n\n" ++ "1" ++ enSegStep2A ++ enSegStep2B ++ "2" ++ enSegStep3 ++
    "3" ++ enSegStep4 ++ enSegFinal

/-- Everything after the interpolated engineer message in the English
prompt when the engineer message is truthy (proof-layer abbreviation; the
step numbers resolve to 2, 3, 4 with the engineer step numbered 1). -/
def enTailSome : String :=
  enSegStep1Post ++ "\n\n" ++ "2" ++ enSegStep2A ++ enSegStep2Phrase ++ enSegStep2B ++
    "3" ++ enSegStep3 ++ "4" ++ enSegStep4 ++ enSegBullet ++ enSegFinal

/-! ### Quality heuristic (C7, C8) -/

/-- C7: for every `GeneratedMessage` (any subject string and any body
string), the quality score returned by `evaluateCommitMessage` satisfies
`0 <= score <= 1`. -/
theorem evaluateCommitMessage_bounds (message : GeneratedCommitMessage) :
    0 ≤ evaluateCommitMessage message ∧ evaluateCommitMessage message ≤ 1 := by
  simp only [evaluateCommitMessage]
  split_ifs <;> norm_num

/-- C8: the quality score takes one of exactly seven values: every result
lies in {0, 0.2, 0.3, 0.5, 0.7, 0.8, 1} (the subset sums of the weights
0.5, 0.3, 0.2, where 0.3 + 0.2 coincides with 0.5 alone), and each of the
seven values is attained by some message. -/
theorem evaluateCommitMessage_seven_values (message : GeneratedCommitMessage) :
    evaluateCommitMessage message ∈ ([0, 2/10, 3/10, 5/10, 7/10, 8/10, 1] : List ℚ) ∧
      (∃ m : GeneratedCommitMessage, evaluateCommitMessage m = 0) ∧
      (∃ m : GeneratedCommitMessage, evaluateCommitMessage m = 2/10) ∧
      (∃ m : GeneratedCommitMessage, evaluateCommitMessage m = 3/10) ∧
      (∃ m : GeneratedCommitMessage, evaluateCommitMessage m = 5/10) ∧
      (∃ m : GeneratedCommitMessage, evaluateCommitMessage m = 7/10) ∧
      (∃ m : GeneratedCommitMessage, evaluateCommitMessage m = 8/10) ∧
      (∃ m : GeneratedCommitMessage, evaluateCommitMessage m = 1) := by
  refine ⟨?_, ?_, ?_, ?_, ?_, ?_, ?_, ?_⟩
  · simp only [evaluateCommitMessage, List.mem_cons, List.not_mem_nil]
    split_ifs <;> norm_num
  · exact ⟨{ subject := [], body := [] }, by
      simp only [evaluateCommitMessage,
        show ((([] : List Char) != []) && decide (([] : List Char).length ≤ 50)) = false from by decide,
        show ((([] : List Char) != []) && decide (0 < ([] : List Char).length)) = false from by decide,
        show (keywords.any fun k => containsSub k (List.map lowChar ([] : List Char))) = false from by decide,
        Bool.false_eq_true, if_false]
      norm_num⟩
  · exact ⟨{ subject := "fixaaaaaaaaaaaaaaaaaaaaaaaaaaaaaaaaaaaaaaaaaaaaaaaa".data, body := [] }, by
      simp only [evaluateCommitMessage,
        show (("fixaaaaaaaaaaaaaaaaaaaaaaaaaaaaaaaaaaaaaaaaaaaaaaaa".data != ([] : List Char)) && decide ("fixaaaaaaaaaaaaaaaaaaaaaaaaaaaaaaaaaaaaaaaaaaaaaaaa".data.length ≤ 50)) = false from by decide,
        show ((([] : List Char) != []) && decide (0 < ([] : List Char).length)) = false from by decide,
        show (keywords.any fun k => containsSub k (List.map lowChar "fixaaaaaaaaaaaaaaaaaaaaaaaaaaaaaaaaaaaaaaaaaaaaaaaa".data)) = true from by decide,
        Bool.false_eq_true, if_false, eq_self_iff_true, if_true]
      norm_num⟩
  · exact ⟨{ subject := [], body := "b".data }, by
      simp only [evaluateCommitMessage,
        show ((([] : List Char) != []) && decide (([] : List Char).length ≤ 50)) = false from by decide,
        show (("b".data != ([] : List Char)) && decide (0 < "b".data.length)) = true from by decide,
        show (keywords.any fun k => containsSub k (List.map lowChar ([] : List Char))) = false from by decide,
        Bool.false_eq_true, if_false, eq_self_iff_true, if_true]
      norm_num⟩
  · exact ⟨{ subject := "Hello".data, body := [] }, by
      simp only [evaluateCommitMessage,
        show (("Hello".data != ([] : List Char)) && decide ("Hello".data.length ≤ 50)) = true from by decide,
        show ((([] : List Char) != []) && decide (0 < ([] : List Char).length)) = false from by decide,
        show (keywords.any fun k => containsSub k (List.map lowChar "Hello".data)) = false from by decide,
        Bool.false_eq_true, if_false, eq_self_iff_true, if_true]
      norm_num⟩
  · exact ⟨{ subject := "fix".data, body := [] }, by
      simp only [evaluateCommitMessage,
        show (("fix".data != ([] : List Char)) && decide ("fix".data.length ≤ 50)) = true from by decide,
        show ((([] : List Char) != []) && decide (0 < ([] : List Char).length)) = false from by decide,
        show (keywords.any fun k => containsSub k (List.map lowChar "fix".data)) = true from by decide,
        Bool.false_eq_true, if_false, eq_self_iff_true, if_true]
      norm_num⟩
  · exact ⟨{ subject := "Hello".data, body := "b".data }, by
      simp only [evaluateCommitMessage,
        show (("Hello".data != ([] : List Char)) && decide ("Hello".data.length ≤ 50)) = true from by decide,
        show (("b".data != ([] : List Char)) && decide (0 < "b".data.length)) = true from by decide,
        show (keywords.any fun k => containsSub k (List.map lowChar "Hello".data)) = false from by decide,
        Bool.false_eq_true, if_false, eq_self_iff_true, if_true]
      norm_num⟩
  · exact ⟨{ subject := "fix".data, body := "b".data }, by
      simp only [evaluateCommitMessage,
        show (("fix".data != ([] : List Char)) && decide ("fix".data.length ≤ 50)) = true from by decide,
        show (("b".data != ([] : List Char)) && decide (0 < "b".data.length)) = true from by decide,
        show (keywords.any fun k => containsSub k (List.map lowChar "fix".data)) = true from by decide,
        eq_self_iff_true, if_true]
      norm_num⟩

/-! ### File filter and diff collection (C6, C9, C10) -/

/-- C6: the exclusion-pattern file filter is idempotent, and the example
input `["a.ts", "yarn.lock", "dist/bundle.js", "b.ts"]` filters to
`["a.ts", "b.ts"]`. -/
theorem filterFiles_idempotent :
    (∀ files : List String, filterFiles (filterFiles files) = filterFiles files) ∧
      filterFiles ["a.ts", "yarn.lock", "dist/bundle.js", "b.ts"] = ["a.ts", "b.ts"] := by
  constructor
  · intro files
    simp [filterFiles, List.filter_filter]
  · decide

/-- C9: the exclusion-pattern file filter returns a subsequence of its
input: the output is a sublist (so the relative order of retained elements
is the input order), every output element occurs in the input, and no
element's multiplicity grows (nothing is added or duplicated). -/
theorem filterFiles_sublist (files : List String) :
    (filterFiles files).Sublist files ∧
      (∀ x ∈ filterFiles files, x ∈ files) ∧
      ∀ x, (filterFiles files).count x ≤ files.count x :=
  ⟨List.filter_sublist files,
   fun _ hx => (List.filter_sublist files).subset hx,
   fun x => (List.filter_sublist files).count_le x⟩

/-- C10: in the standalone variant, when every staged file matches an
exclusion pattern, `getGitDiff` returns the empty string and does not
invoke the file-scoped diff at all (the invocation flag is `false`),
rather than raising an error. -/
theorem getGitDiff_all_excluded (staged : List String) (diffFn : List String → String)
    (h : ∀ f ∈ staged, isExcluded f = true) :
    getGitDiff staged diffFn = ("", false) := by
  have hf : staged.filter (fun file => !isExcluded file) = [] := by
    simp only [List.filter_eq_nil_iff, Bool.not_eq_eq_eq_not, Bool.not_true]
    intro a ha
    simp [h a ha]
  simp [getGitDiff, hf]

/-- Witness for C10 at a concrete staged list in which both files match an
exclusion pattern. -/
theorem getGitDiff_all_excluded_witness :
    getGitDiff ["yarn.lock", "dist/bundle.min.js"] (fun _ => "diff text") = ("", false) :=
  getGitDiff_all_excluded ["yarn.lock", "dist/bundle.min.js"] (fun _ => "diff text") (by decide)

/-! ### Dual-variant generation (C3) -/

/-- C3: the dual-variant generation step is all-or-nothing: it either
returns both language variants' parsed messages, or fails with a
`GenFailure`; in particular it fails whenever either completion's first
content block is not plain text.  No partial result with only one variant
exists. -/
theorem generateCommitMessage_all_or_nothing (rEn rCn : Except (List Char) ApiContent) :
    ((∃ tEn tCn, rEn = Except.ok (ApiContent.text tEn) ∧ rCn = Except.ok (ApiContent.text tCn) ∧
        generateCommitMessage rEn rCn = Except.ok (parseResponse tEn, parseResponse tCn)) ∨
      ∃ e, generateCommitMessage rEn rCn = Except.error e) ∧
      ((rEn = Except.ok ApiContent.nonText ∨ rCn = Except.ok ApiContent.nonText) →
        ∃ e, generateCommitMessage rEn rCn = Except.error e) := by
  constructor
  · rcases rEn with e | a
    · exact Or.inr ⟨GenFailure.apiRejected e, rfl⟩
    rcases rCn with f | b
    · cases a <;> exact Or.inr ⟨GenFailure.apiRejected f, rfl⟩
    cases a with
    | text tEn =>
      cases b with
      | text tCn => exact Or.inl ⟨tEn, tCn, rfl, rfl, rfl⟩
      | nonText => exact Or.inr ⟨GenFailure.unexpectedResponseType, rfl⟩
    | nonText => cases b <;> exact Or.inr ⟨GenFailure.unexpectedResponseType, rfl⟩
  · intro h
    rcases rEn with e | a
    · exact ⟨GenFailure.apiRejected e, rfl⟩
    rcases rCn with f | b
    · cases a <;> exact ⟨GenFailure.apiRejected f, rfl⟩
    rcases h with h | h
    · cases Except.ok.inj h
      cases b <;> exact ⟨GenFailure.unexpectedResponseType, rfl⟩
    · cases Except.ok.inj h
      cases a <;> exact ⟨GenFailure.unexpectedResponseType, rfl⟩

/-- Witness for C3: a non-text English completion makes the whole
generation step fail even though the Chinese completion is plain text. -/
theorem generateCommitMessage_all_or_nothing_witness :
    ∃ e, generateCommitMessage (Except.ok ApiContent.nonText)
        (Except.ok (ApiContent.text "ok".data)) = Except.error e :=
  (generateCommitMessage_all_or_nothing (Except.ok ApiContent.nonText)
    (Except.ok (ApiContent.text "ok".data))).2 (Or.inl rfl)

/-! ### Response parser lemmas (C1, C2) -/

theorem eqCI_refl (a : Char) : eqCI a a = true := by simp [eqCI]

theorem startsWithCI_append_self (p r : List Char) : startsWithCI p (p ++ r) = true := by
  induction p with
  | nil => rfl
  | cons a ps ih => simp [startsWithCI, eqCI_refl, ih]

theorem lowChar_ne_lt {x : Char} (hx : x ≠ '<') : lowChar x ≠ '<' := by
  unfold lowChar
  split
  · rename_i h
    have hlt : ∀ n, n < 123 → 97 ≤ n → Char.ofNat n ≠ '<' := by decide
    exact hlt (x.toNat + 32) (by omega) (by omega)
  · exact hx

theorem eqCI_head_lt_false {x : Char} (hx : x ≠ '<') : eqCI '<' x = false := by
  have h1 : lowChar '<' = '<' := by decide
  have h2 := lowChar_ne_lt hx
  simp only [eqCI, h1, beq_eq_false_iff_ne, ne_eq]
  exact fun he => h2 he.symm

theorem findCI_clean (pat : List Char) (hc : Char) (pre rest : List Char)
    (hhead : pat.head? = some hc) (hpre : ∀ x ∈ pre, eqCI hc x = false)
    (hmatch : startsWithCI pat rest = true) :
    findCI pat (pre ++ rest) = some pre.length := by
  induction pre with
  | nil =>
    cases rest with
    | nil => simp [findCI, hmatch]
    | cons y l => simp [findCI, hmatch]
  | cons y pre' ih =>
    cases pat with
    | nil => simp at hhead
    | cons p ps =>
      have hp : p = hc := by simpa using hhead
      have hy : eqCI p y = false := by
        rw [hp]; exact hpre y (List.mem_cons_self _ _)
      have hsw : startsWithCI (p :: ps) (y :: (pre' ++ rest)) = false := by
        simp [startsWithCI, hy]
      have ih2 := ih (fun x hx => hpre x (List.mem_cons_of_mem _ hx))
      simp [findCI, hsw, ih2]

theorem startsWithCI_split {p u v : List Char} :
    startsWithCI p (u ++ v) = true → p.length ≤ u.length → startsWithCI p u = true := by
  induction u generalizing p with
  | nil =>
    intro h hl
    cases p with
    | nil => rfl
    | cons q ps => simp at hl
  | cons x us ih =>
    intro h hl
    cases p with
    | nil => rfl
    | cons q ps =>
      simp only [List.cons_append, startsWithCI, Bool.and_eq_true] at h
      simp only [startsWithCI, Bool.and_eq_true]
      exact ⟨h.1, ih h.2 (by simpa using hl)⟩

theorem startsWithCI_drop {p u v : List Char} :
    startsWithCI p (u ++ v) = true → startsWithCI (p.drop u.length) v = true := by
  induction u generalizing p with
  | nil => exact fun h => h
  | cons x us ih =>
    intro h
    cases p with
    | nil => simp [startsWithCI]
    | cons q ps =>
      simp only [List.cons_append, startsWithCI, Bool.and_eq_true] at h
      simpa using ih h.2

theorem containsCI_cons_false {pat : List Char} {x : Char} {l : List Char}
    (h : containsCI pat (x :: l) = false) :
    startsWithCI pat (x :: l) = false ∧ containsCI pat l = false := by
  simp only [containsCI, Bool.or_eq_false_iff] at h
  exact h

theorem findCI_no_occurrence (pat : List Char) :
    ∀ pre rest : List Char, containsCI pat pre = false →
      (∀ k, 0 < k → k < pat.length → startsWithCI (pat.drop k) rest = false) →
      startsWithCI pat rest = true →
      findCI pat (pre ++ rest) = some pre.length := by
  intro pre
  induction pre with
  | nil =>
    intro rest _ _ hmatch
    cases rest with
    | nil => simp [findCI, hmatch]
    | cons y l => simp [findCI, hmatch]
  | cons y pre' ih =>
    intro rest hpre hstr hmatch
    obtain ⟨hsw1, hpre'⟩ := containsCI_cons_false hpre
    have hsw : startsWithCI pat (y :: (pre' ++ rest)) = false := by
      cases hx : startsWithCI pat (y :: (pre' ++ rest)) with
      | false => rfl
      | true =>
        by_cases hlen : pat.length ≤ (y :: pre').length
        · have hsp := startsWithCI_split (u := y :: pre') (v := rest) hx hlen
          rw [hsp] at hsw1
          exact Bool.noConfusion hsw1
        · push_neg at hlen
          have hdrop := startsWithCI_drop (u := y :: pre') (v := rest) hx
          have hz := hstr (y :: pre').length (by simp) hlen
          rw [hdrop] at hz
          exact Bool.noConfusion hz
    simp [findCI, hsw, ih rest hpre' hstr hmatch]

theorem extractMatch_tagged (pre c post : List Char)
    (h1 : containsCI openTag pre = false) (h2 : '<' ∉ c) :
    extractMatch (pre ++ openTag ++ c ++ closeTag ++ post) = some c := by
  have hcc : ∀ x ∈ c, eqCI '<' x = false := fun x hx =>
    eqCI_head_lt_false (fun he => h2 (he ▸ hx))
  have hassoc : pre ++ openTag ++ c ++ closeTag ++ post =
      pre ++ (openTag ++ (c ++ (closeTag ++ post))) := by
    simp [List.append_assoc]
  have hself : ∀ k, k < openTag.length → 0 < k →
      startsWithCI (openTag.drop k) openTag = false := by decide
  have hstr : ∀ k, 0 < k → k < openTag.length →
      startsWithCI (openTag.drop k) (openTag ++ (c ++ (closeTag ++ post))) = false := by
    intro k hk0 hkl
    cases hx : startsWithCI (openTag.drop k) (openTag ++ (c ++ (closeTag ++ post))) with
    | false => rfl
    | true =>
      have hlen : (openTag.drop k).length ≤ openTag.length := by
        simp
      have hsp := startsWithCI_split hx hlen
      have hfalse := hself k hkl hk0
      rw [hsp] at hfalse
      exact Bool.noConfusion hfalse
  have hfind1 : findCI openTag (pre ++ (openTag ++ (c ++ (closeTag ++ post)))) =
      some pre.length :=
    findCI_no_occurrence openTag pre _ h1 hstr (startsWithCI_append_self _ _)
  have hdrop : (pre ++ (openTag ++ (c ++ (closeTag ++ post)))).drop
      (pre.length + openTag.length) = c ++ (closeTag ++ post) := by
    rw [show pre.length + openTag.length = (pre ++ openTag).length by simp,
        show pre ++ (openTag ++ (c ++ (closeTag ++ post))) =
          (pre ++ openTag) ++ (c ++ (closeTag ++ post)) by simp]
    exact List.drop_left _ _
  have hfind2 : findCI closeTag (c ++ (closeTag ++ post)) = some c.length :=
    findCI_clean closeTag '<' c _ rfl hcc (startsWithCI_append_self _ _)
  have htake : (c ++ (closeTag ++ post)).take c.length = c := List.take_left _ _
  rw [hassoc]
  simp only [extractMatch, hfind1, hdrop, hfind2, htake]

theorem splitNl_ne_nil (s : List Char) : splitNl s ≠ [] := by
  cases s with
  | nil => simp [splitNl]
  | cons c rest =>
    simp only [splitNl]
    split <;> simp

theorem splitNl_no_nl {l : List Char} (h : '\n' ∉ l) : splitNl l = [l] := by
  induction l with
  | nil => rfl
  | cons c rest ih =>
    have hc : c ≠ '\n' := by
      intro he; exact h (he ▸ List.mem_cons_self _ _)
    have hr : splitNl rest = [rest] := ih (fun hx => h (List.mem_cons_of_mem _ hx))
    simp [splitNl, hc, hr]

theorem mem_splitNl_no_nl {l s : List Char} (hmem : l ∈ splitNl s) : '\n' ∉ l := by
  induction s generalizing l with
  | nil =>
    simp [splitNl] at hmem
    subst hmem
    simp
  | cons c rest ih =>
    simp only [splitNl] at hmem
    by_cases hc : c = '\n'
    · rw [if_pos hc] at hmem
      rcases List.mem_cons.1 hmem with h | h
      · subst h; simp
      · exact ih h
    · rw [if_neg hc] at hmem
      rcases List.mem_cons.1 hmem with h | h
      · subst h
        intro hn
        rcases List.mem_cons.1 hn with h' | h'
        · exact hc h'.symm
        · have hmem2 : (splitNl rest).headD [] ∈ splitNl rest := by
            cases hsr : splitNl rest with
            | nil => exact absurd hsr (splitNl_ne_nil rest)
            | cons a as => simp
          exact ih hmem2 h'
      · exact ih (List.mem_of_mem_tail h)

theorem jsTrim_subset (l : List Char) : jsTrim l ⊆ l := by
  intro x hx
  unfold jsTrim at hx
  rw [List.mem_reverse] at hx
  have h1 := List.dropWhile_subset _ hx
  rw [List.mem_reverse] at h1
  exact List.dropWhile_subset _ h1

theorem jsTrim_eq_rdrop (s : List Char) :
    jsTrim s = List.rdropWhile isJsSpace (List.dropWhile isJsSpace s) := rfl

theorem dropWhile_rdropWhile (p : Char → Bool) (s : List Char) :
    List.dropWhile p (List.rdropWhile p (List.dropWhile p s)) =
      List.rdropWhile p (List.dropWhile p s) := by
  cases hr : List.rdropWhile p (List.dropWhile p s) with
  | nil => simp
  | cons y ys =>
    have hpre := List.rdropWhile_prefix (p := p) (l := List.dropWhile p s)
    rw [hr] at hpre
    obtain ⟨t, ht⟩ := hpre
    have hy : (List.dropWhile p s).head? = some y := by
      rw [← ht]; rfl
    have hnp : p y = false := by
      have hh := List.head?_dropWhile_not p s
      rw [hy] at hh
      exact hh
    simp [List.dropWhile_cons, hnp]

theorem jsTrim_idem (s : List Char) : jsTrim (jsTrim s) = jsTrim s := by
  rw [jsTrim_eq_rdrop s, jsTrim_eq_rdrop, dropWhile_rdropWhile, List.rdropWhile_idempotent]

theorem parseResponse_jsTrim (c : List Char) : parseResponse (jsTrim c) = parseResponse c := by
  simp [parseResponse, jsTrim_idem]

theorem getLastD_mem {α : Type} (l : List α) (d : α) (h : l ≠ []) : l.getLastD d ∈ l := by
  induction l with
  | nil => exact absurd rfl h
  | cons x t ih =>
    cases t with
    | nil => simp
    | cons y u => exact List.mem_cons_of_mem _ (ih (by simp))

/-- C1: for any completion text containing a well-formed tagged
commit-message block (the code's tag is `<commit message>`, matched
case-insensitively), the response parser returns a subject equal to the
block's first line and a body equal to the block's remaining lines
trimmed, regardless of any prose outside the tags.  The prose before the
block is arbitrary — it may contain `<` and other XML blocks — except
that, as the leftmost-match rule forces, it must not itself contain the
opening marker case-insensitively; the text after the closing marker is
unrestricted; the block's content is well-formed (no `<`, in particular
no earlier closing marker inside it). -/
theorem parseCompletion_tagged (pre c post : List Char)
    (h1 : containsCI openTag pre = false) (h2 : '<' ∉ c) :
    parseCompletion (pre ++ openTag ++ c ++ closeTag ++ post) =
      { subject := (splitNl (jsTrim c)).headD [],
        body := jsTrim (joinNl (splitNl (jsTrim c)).tail) } := by
  have he : extractCommitMessage (pre ++ openTag ++ c ++ closeTag ++ post) = jsTrim c := by
    unfold extractCommitMessage
    rw [extractMatch_tagged pre c post h1 h2]
  simp only [parseCompletion, he, parseResponse_jsTrim]
  rfl

/-- Witness for C1 at a concrete completion whose leading prose itself
contains another XML block (so `<` does occur before the tags), plus
trailing prose after the block. -/
theorem parseCompletion_tagged_witness :
    parseCompletion
        ("<observations-about-code-changes>\nThe loop bound was off by one.\n</observations-about-code-changes>\nSure, here it is:\n".data ++
          openTag ++ "\nFix pagination bound\n\n- adjust loop\n".data ++ closeTag ++
          "\nDone.".data) =
      { subject := "Fix pagination bound".data, body := "- adjust loop".data } :=
  (parseCompletion_tagged
      "<observations-about-code-changes>\nThe loop bound was off by one.\n</observations-about-code-changes>\nSure, here it is:\n".data
      "\nFix pagination bound\n\n- adjust loop\n".data "\nDone.".data
      (by decide) (by decide)).trans (by decide)

/-- C2 counterexample: on the untagged completion "hello\nworld" the
response parser returns subject "world" (the last non-empty line), not the
first non-empty line "hello" as the claim states. -/
theorem parseCompletion_untagged_not_first_line :
    parseCompletion "hello\nworld".data =
        { subject := "world".data, body := [] } ∧
      firstNonEmptyLine "hello\nworld".data = "hello".data ∧
      (parseCompletion "hello\nworld".data).subject ≠
        firstNonEmptyLine "hello\nworld".data := by decide

/-- C2 (amended): the response parser is total — every completion yields a
`GeneratedCommitMessage` — and for every completion on which the tagged
regex fails (in particular every completion lacking the tagged block, and
the empty completion, for which both fields come out empty), the subject
is the trimmed LAST non-empty line of the completion and the body is
empty. -/
theorem parseCompletion_fallback (s : List Char) (h : extractMatch s = none) :
    (parseCompletion s).subject = jsTrim (lastNonEmptyLine s) ∧
      (parseCompletion s).body = [] := by
  have he : extractCommitMessage s = lastNonEmptyLine s := by
    simp [extractCommitMessage, h]
  have hnl : '\n' ∉ lastNonEmptyLine s := by
    unfold lastNonEmptyLine
    cases hf : (splitNl s).filter (fun line => !(jsTrim line == [])) with
    | nil => simp
    | cons a as =>
      have hmem : (a :: as).getLastD [] ∈ a :: as := getLastD_mem _ _ (by simp)
      have hmem2 : (a :: as).getLastD [] ∈
          (splitNl s).filter (fun line => !(jsTrim line == [])) := by
        rw [hf]; exact hmem
      exact mem_splitNl_no_nl (List.mem_of_mem_filter hmem2)
  have hn2 : '\n' ∉ jsTrim (lastNonEmptyLine s) := fun hx => hnl (jsTrim_subset _ hx)
  have hsplit : splitNl (jsTrim (lastNonEmptyLine s)) = [jsTrim (lastNonEmptyLine s)] :=
    splitNl_no_nl hn2
  refine ⟨?_, ?_⟩
  · simp [parseCompletion, he, parseResponse, hsplit]
  · simp only [parseCompletion, he, parseResponse, hsplit, List.tail_cons, joinNl]
    rfl

/-- Witness for C2 (amended) at a concrete untagged completion. -/
theorem parseCompletion_fallback_witness :
    (parseCompletion "Here is a commit message:\nAdd retry logic ".data).subject =
        jsTrim (lastNonEmptyLine "Here is a commit message:\nAdd retry logic ".data) ∧
      (parseCompletion "Here is a commit message:\nAdd retry logic ".data).body = [] :=
  parseCompletion_fallback "Here is a commit message:\nAdd retry logic ".data (by decide)

/-! ### Substring lemmas for the prompt templates (C4, C5) -/

theorem containsSub_nil_pat (b : List Char) : containsSub [] b = true := by
  cases b <;> simp [containsSub, startsWithB, List.isEmpty]

theorem startsWithB_append_ext {p u : List Char} (v : List Char) :
    startsWithB p u = true → startsWithB p (u ++ v) = true := by
  induction p generalizing u with
  | nil => exact fun _ => rfl
  | cons q ps ih =>
    intro h
    cases u with
    | nil => simp [startsWithB] at h
    | cons x us =>
      simp only [startsWithB, Bool.and_eq_true] at h
      simp only [List.cons_append, startsWithB, Bool.and_eq_true]
      exact ⟨h.1, ih h.2⟩

theorem containsSub_append_left {pat a : List Char} (b : List Char)
    (h : containsSub pat a = true) : containsSub pat (a ++ b) = true := by
  induction a with
  | nil =>
    have hp : pat = [] := by
      cases pat with
      | nil => rfl
      | cons q ps => simp [containsSub, List.isEmpty] at h
    subst hp
    exact containsSub_nil_pat b
  | cons x a' ih =>
    simp only [containsSub, Bool.or_eq_true] at h
    rcases h with h | h
    · simp only [List.cons_append, containsSub, Bool.or_eq_true]
      exact Or.inl (startsWithB_append_ext b h)
    · simp only [List.cons_append, containsSub, Bool.or_eq_true]
      exact Or.inr (ih h)

theorem containsSub_append_right {pat b : List Char} (a : List Char)
    (h : containsSub pat b = true) : containsSub pat (a ++ b) = true := by
  induction a with
  | nil => exact h
  | cons x a' ih =>
    simp only [List.cons_append, containsSub, Bool.or_eq_true]
    exact Or.inr ih

theorem prefB_drop {p u v : List Char} (h : startsWithB p (u ++ v) = true) :
    startsWithB (p.drop u.length) v = true := by
  induction u generalizing p with
  | nil => exact h
  | cons x us ih =>
    cases p with
    | nil => rfl
    | cons q ps =>
      simp only [List.cons_append, startsWithB, Bool.and_eq_true] at h
      simpa using ih h.2

theorem prefB_split {p u v : List Char} :
    startsWithB p (u ++ v) = true → p.length ≤ u.length → startsWithB p u = true := by
  induction u generalizing p with
  | nil =>
    intro h hl
    cases p with
    | nil => rfl
    | cons q ps => simp at hl
  | cons x us ih =>
    intro h hl
    cases p with
    | nil => rfl
    | cons q ps =>
      simp only [List.cons_append, startsWithB, Bool.and_eq_true] at h
      simp only [startsWithB, Bool.and_eq_true]
      exact ⟨h.1, ih h.2 (by simpa using hl)⟩

theorem prefB_long {p u v : List Char} :
    startsWithB p (u ++ v) = true → u.length ≤ p.length → p.take u.length = u := by
  induction u generalizing p with
  | nil =>
    intro h hl
    rfl
  | cons x us ih =>
    intro h hl
    cases p with
    | nil => simp at hl
    | cons q ps =>
      simp only [List.cons_append, startsWithB, Bool.and_eq_true] at h
      have hq : q = x := by simpa using h.1
      simp only [List.length_cons, List.take_succ_cons]
      rw [hq, ih h.2 (by simpa using hl)]

theorem noStraddle_spec {pat a : List Char} (h : noStraddle pat a = true)
    {k : Nat} (hk0 : k ≠ 0) (hkl : k < pat.length) :
    (pat.take k == a.drop (a.length - k)) = false := by
  simp only [noStraddle, List.all_eq_true, List.mem_range] at h
  have := h k hkl
  rcases Bool.or_eq_true_iff.1 this with h1 | h1
  · exact absurd (by simpa using h1) hk0
  · simpa using h1

theorem noStraddle_mono {pat : List Char} {x : Char} {a : List Char}
    (h : noStraddle pat (x :: a) = true) : noStraddle pat a = true := by
  simp only [noStraddle, List.all_eq_true, List.mem_range] at h ⊢
  intro k hkl
  rcases Nat.eq_zero_or_pos k with hk0 | hkpos
  · simp [hk0]
  have hp := h k hkl
  simp only [Bool.or_eq_true] at hp ⊢
  rcases hp with h1 | h1
  · have hk : k = 0 := by simpa using h1
    omega
  · by_cases hka : k ≤ a.length
    · right
      have hdrop : (x :: a).drop ((x :: a).length - k) = a.drop (a.length - k) := by
        simp only [List.length_cons]
        rw [show a.length + 1 - k = (a.length - k) + 1 by omega]
        rfl
      rw [hdrop] at h1
      exact h1
    · right
      simp only [Bool.not_eq_eq_eq_not, Bool.not_true, beq_eq_false_iff_ne, ne_eq]
      intro he
      have hlen : (pat.take k).length = (a.drop (a.length - k)).length := by rw [he]
      rw [List.length_take, List.length_drop] at hlen
      omega

theorem containsSub_cons_false {pat : List Char} {x : Char} {l : List Char}
    (h : containsSub pat (x :: l) = false) :
    startsWithB pat (x :: l) = false ∧ containsSub pat l = false := by
  simp only [containsSub, Bool.or_eq_false_iff] at h
  exact h

theorem not_contains_append2 (pat : List Char) :
    ∀ a rest : List Char, containsSub pat a = false → noStraddle pat a = true →
      containsSub pat rest = false → containsSub pat (a ++ rest) = false := by
  intro a
  induction a with
  | nil =>
    intro rest _ _ hrest
    exact hrest
  | cons x a' ih =>
    intro rest hA hAs hrest
    obtain ⟨hsw, hA'⟩ := containsSub_cons_false hA
    simp only [List.cons_append, containsSub, Bool.or_eq_false_iff]
    refine ⟨?_, ih rest hA' (noStraddle_mono hAs) hrest⟩
    by_contra hcon
    have hswt : startsWithB pat (x :: (a' ++ rest)) = true := by
      cases hx : startsWithB pat (x :: (a' ++ rest)) with
      | true => rfl
      | false => exact absurd hx hcon
    by_cases hlen : pat.length ≤ (x :: a').length
    · have := prefB_split (u := x :: a') (v := rest) hswt hlen
      rw [this] at hsw
      exact Bool.true_eq_false ▸ hsw.symm ▸ rfl
    · push_neg at hlen
      have htake : pat.take (x :: a').length = x :: a' :=
        prefB_long (u := x :: a') (v := rest) hswt (Nat.le_of_lt hlen)
      have hns := noStraddle_spec hAs (k := (x :: a').length) (by simp) hlen
      rw [Nat.sub_self] at hns
      simp only [List.drop_zero] at hns
      rw [htake] at hns
      simp at hns

theorem not_contains_mid_append (pat : List Char) :
    ∀ d b : List Char, pat ≠ [] → containsSub pat d = false → containsSub pat b = false →
      noTailStart pat b = true → containsSub pat (d ++ b) = false := by
  intro d
  induction d with
  | nil =>
    intro b _ _ hb _
    exact hb
  | cons x d' ih =>
    intro b hne hd hb hbs
    obtain ⟨hsw, hd'⟩ := containsSub_cons_false hd
    simp only [List.cons_append, containsSub, Bool.or_eq_false_iff]
    refine ⟨?_, ih b hne hd' hb hbs⟩
    by_contra hcon
    have hswt : startsWithB pat (x :: (d' ++ b)) = true := by
      cases hx : startsWithB pat (x :: (d' ++ b)) with
      | true => rfl
      | false => exact absurd hx hcon
    by_cases hlen : pat.length ≤ (x :: d').length
    · have := prefB_split (u := x :: d') (v := b) hswt hlen
      rw [this] at hsw
      exact Bool.true_eq_false ▸ hsw.symm ▸ rfl
    · push_neg at hlen
      have hdropb : startsWithB (pat.drop (x :: d').length) b = true :=
        prefB_drop (u := x :: d') (v := b) hswt
      have hk0 : (x :: d').length ≠ 0 := by simp
      simp only [noTailStart, List.all_eq_true, List.mem_range] at hbs
      have := hbs (x :: d').length hlen
      rcases Bool.or_eq_true_iff.1 this with h1 | h1
      · simp only [beq_iff_eq] at h1
        exact hk0 h1
      · rw [hdropb] at h1
        simp at h1

theorem en_false_data (diff : String) (em : Option String) (ht : jsTruthy em = false) :
    (generateCommitMessageEn diff em).data =
      enSegGoal.data ++ (diff.data ++ enTailNone.data) := by
  simp [generateCommitMessageEn, ht, enTailNone, String.data_append, List.append_assoc]

theorem en_true_data (diff : String) (em : Option String) (ht : jsTruthy em = true) :
    (generateCommitMessageEn diff em).data =
      enSegGoal.data ++ (diff.data ++ (enSegAfterDiff.data ++ (enSegStep1Pre.data ++
        ((jsVal em).data ++ enTailSome.data)))) := by
  simp [generateCommitMessageEn, ht, enTailSome, String.data_append, List.append_assoc]

theorem cn_data (diff : String) (em : Option String) :
    (generateCommitMessageCn diff em).data =
      cnSegGoal.data ++ (diff.data ++ (cnSegMid.data ++ ((jsVal em).data ++
        cnSegFinal.data))) := by
  simp [generateCommitMessageCn, String.data_append, List.append_assoc]

set_option maxRecDepth 400000 in
/-- C5: in the English prompt builder, when the engineer message is absent
or empty the engineer-observation step is omitted entirely (given that the
diff itself does not contain the engineer-message tag) and the remaining
steps are numbered 1, 2, 3; when a non-empty engineer message is supplied,
that step appears numbered 1 and the following steps are numbered 2, 3, 4. -/
theorem en_step_numbering (diff : String) (em : Option String) :
    (jsTruthy em = false →
      containsSub "1. Carefully examine the code changes".data
          (generateCommitMessageEn diff em).data = true ∧
        containsSub "2. List up".data (generateCommitMessageEn diff em).data = true ∧
        containsSub "3. Generate a commit message".data
          (generateCommitMessageEn diff em).data = true ∧
        (containsSub "<engineer-message>".data diff.data = false →
          containsSub "<engineer-message>".data
            (generateCommitMessageEn diff em).data = false)) ∧
      (jsTruthy em = true →
        containsSub "1. Look at the message".data
            (generateCommitMessageEn diff em).data = true ∧
          containsSub "2. Carefully examine the code changes".data
            (generateCommitMessageEn diff em).data = true ∧
          containsSub "3. List up".data (generateCommitMessageEn diff em).data = true ∧
          containsSub "4. Generate a commit message".data
            (generateCommitMessageEn diff em).data = true) := by
  constructor
  · intro ht
    rw [en_false_data diff em ht]
    refine ⟨?_, ?_, ?_, ?_⟩
    · exact containsSub_append_right _ (containsSub_append_right _ (by decide))
    · exact containsSub_append_right _ (containsSub_append_right _ (by decide))
    · exact containsSub_append_right _ (containsSub_append_right _ (by decide))
    · intro hd
      exact not_contains_append2 _ _ _ (by decide) (by decide)
        (not_contains_mid_append _ _ _ (by decide) hd (by decide) (by decide))
  · intro ht
    rw [en_true_data diff em ht]
    refine ⟨?_, ?_, ?_, ?_⟩
    · exact containsSub_append_right _ (containsSub_append_right _
        (containsSub_append_right _ (containsSub_append_left _ (by decide))))
    · exact containsSub_append_right _ (containsSub_append_right _
        (containsSub_append_right _ (containsSub_append_right _
          (containsSub_append_right _ (by decide)))))
    · exact containsSub_append_right _ (containsSub_append_right _
        (containsSub_append_right _ (containsSub_append_right _
          (containsSub_append_right _ (by decide)))))
    · exact containsSub_append_right _ (containsSub_append_right _
        (containsSub_append_right _ (containsSub_append_right _
          (containsSub_append_right _ (by decide)))))

set_option maxRecDepth 400000 in
/-- Witness for C5 at a concrete diff, once with the engineer message
absent and once with it present. -/
theorem en_step_numbering_witness :
    (containsSub "1. Carefully examine the code changes".data
          (generateCommitMessageEn "sample diff" none).data = true ∧
        containsSub "<engineer-message>".data
          (generateCommitMessageEn "sample diff" none).data = false) ∧
      containsSub "1. Look at the message".data
          (generateCommitMessageEn "sample diff" (some "mention the retry")).data = true ∧
        containsSub "2. Carefully examine the code changes".data
          (generateCommitMessageEn "sample diff" (some "mention the retry")).data = true := by
  have h1 := (en_step_numbering "sample diff" none).1 rfl
  have h2 := (en_step_numbering "sample diff" (some "mention the retry")).2 (by decide)
  exact ⟨⟨h1.1, h1.2.2.2 (by decide)⟩, h2.1, h2.2.1⟩

set_option maxRecDepth 400000 in
/-- C4 counterexample: at the concrete input (empty diff, absent engineer
message) the two prompt variants differ in structure and requested tag
names: the English prompt requests the `<commit-message>` tag and omits
the engineer-message step, while the Chinese prompt does not contain
`<commit-message>` at all, requests its Chinese tag names, and still
contains its engineer-message block and hard-coded step 1. -/
theorem en_cn_tags_differ :
    containsSub "<commit-message>".data (generateCommitMessageEn "" none).data = true ∧
      containsSub "<commit-message>".data (generateCommitMessageCn "" none).data = false ∧
      containsSub "<engineer-message>".data (generateCommitMessageEn "" none).data = false ∧
      containsSub "<工程师信息>".data (generateCommitMessageCn "" none).data = true ∧
      containsSub "1. Look at the message".data
          (generateCommitMessageEn "" none).data = false ∧
      containsSub "1. 查看原作者的commit消息".data
          (generateCommitMessageCn "" none).data = true :=
  ⟨by decide, by decide, by decide, by decide, by decide, by decide⟩

set_option maxRecDepth 400000 in
/-- C4 (amended): for every input, the English prompt always requests the
`<commit-message>` tag (and, when the engineer message is truthy, contains
its conditional `<engineer-message>` block), while the Chinese prompt
always requests the Chinese commit tag `<提交信息>` and always contains
its engineer-message block `<工程师信息>` — the two variants share the
diff-plus-instructions shape but differ in requested tag names, in step
numbering (dynamic vs hard-coded), and in the conditionality of the
engineer-message step. -/
theorem en_cn_structure (diff : String) (em : Option String) :
    containsSub "<commit-message>".data (generateCommitMessageEn diff em).data = true ∧
      containsSub "<提交信息>".data (generateCommitMessageCn diff em).data = true ∧
      containsSub "<工程师信息>".data (generateCommitMessageCn diff em).data = true ∧
      (jsTruthy em = true →
        containsSub "<engineer-message>".data
          (generateCommitMessageEn diff em).data = true) := by
  refine ⟨?_, ?_, ?_, ?_⟩
  · cases ht : jsTruthy em with
    | false =>
      rw [en_false_data diff em ht]
      exact containsSub_append_right _ (containsSub_append_right _ (by decide))
    | true =>
      rw [en_true_data diff em ht]
      exact containsSub_append_right _ (containsSub_append_right _
        (containsSub_append_right _ (containsSub_append_right _
          (containsSub_append_right _ (by decide)))))
  · rw [cn_data]
    exact containsSub_append_right _ (containsSub_append_right _
      (containsSub_append_right _ (containsSub_append_right _ (by decide))))
  · rw [cn_data]
    exact containsSub_append_right _ (containsSub_append_right _
      (containsSub_append_left _ (by decide)))
  · intro ht
    rw [en_true_data diff em ht]
    exact containsSub_append_right _ (containsSub_append_right _
      (containsSub_append_right _ (containsSub_append_left _ (by decide))))

set_option maxRecDepth 400000 in
/-- Witness for C4 (amended) at a concrete diff and a truthy engineer
message. -/
theorem en_cn_structure_witness :
    containsSub "<commit-message>".data
        (generateCommitMessageEn "d" (some "ctx")).data = true ∧
      containsSub "<提交信息>".data (generateCommitMessageCn "d" (some "ctx")).data = true ∧
      containsSub "<engineer-message>".data
        (generateCommitMessageEn "d" (some "ctx")).data = true :=
  ⟨(en_cn_structure "d" (some "ctx")).1, (en_cn_structure "d" (some "ctx")).2.1,
    (en_cn_structure "d" (some "ctx")).2.2.2 (by decide)⟩
